import Mathlib

/-!
Verification of the thread pool implemented in src/hello/src/lib.rs.

The pool owns a vector of workers and the sending half of one mpsc
channel; each worker thread loops, locking the shared receiver, taking
one job, releasing the lock and running the job.  Dropping the pool
takes the sender (closing the channel) and then joins every worker.

A job is an opaque one-shot closure.  Its only behaviour observable by
the pool is that it is invoked and either returns normally or unwinds,
so we model a job by an identifier together with a flag recording
whether invoking it unwinds.  The concurrent behaviour of the pool is
modelled by an interleaving small-step transition system over a
configuration holding the channel queue, the state of every worker
thread and ghost histories of the submitted, dequeued and completed
jobs.
-/

/-- Model of type Job = Box of (dyn FnOnce() + Send), lib.rs line 7: an
opaque one-shot closure identified by id; the field panics records
whether invoking the closure unwinds. -/
structure Job where
  id : Nat
  panics : Bool
deriving DecidableEq, Repr

/-- Model of struct Worker, lib.rs lines 101 to 104: numeric id and an
optional join handle (Option of JoinHandle).  The field rx records which
receiver this worker shares, i.e. the identity of the Arc target passed
to Worker::new; ThreadPool::new passes the one receiver of its single
channel to every worker. -/
structure Worker where
  id : Nat
  rx : Nat
  thread : Option Unit
deriving DecidableEq, Repr

/-- Model of Worker::new, lib.rs lines 108 to 133: spawns the thread
(whose loop is modelled by the transition system below) and returns the
struct with the handle present. -/
def Worker.new (id : Nat) (rx : Nat) : Worker :=
  { id := id, rx := rx, thread := some () }

/-- Model of struct ThreadPool, lib.rs lines 9 to 12: the workers vector
and the optional sending half of the job channel. -/
structure ThreadPool where
  workers : List Worker
  sender : Option Unit
deriving DecidableEq, Repr

/-- Model of ThreadPool::new, lib.rs lines 30 to 47.  The assert on
n_workers > 0 is modelled by returning none (the function panics there);
otherwise one channel is created (its receiver has identity 0), each of
the n_workers workers is built by Worker::new sharing that receiver, and
the sender is stored. -/
def ThreadPool.new (n_workers : Nat) : Option ThreadPool :=
  if n_workers > 0 then
    some { workers := (List.range n_workers).map (fun id => Worker.new id 0),
           sender := some () }
  else
    none

/-- Model of ThreadPool::execute, lib.rs lines 68 to 79, as a function of
the pool, the channel state and the queue.  The argument alive says
whether the receiving half of the channel still exists (some worker
thread has not yet terminated); sender.send returns Err exactly when it
does not, and the code unwraps that result.  The returned Bool records
whether the call panicked (the unwrap on a failed send); the rest is the
resulting pool and queue.  When the sender is absent the call is a
silent no-op. -/
def ThreadPool.execute (p : ThreadPool) (alive : Bool) (j : Job)
    (q : List Job) : Bool × ThreadPool × List Job :=
  match p.sender with
  | none => (false, p, q)
  | some _ => if alive then (false, p, q ++ [j]) else (true, p, q)

/-- Outcome of joining one worker thread: it either finished normally or
terminated by unwinding. -/
inductive JoinResult where
  | finished
  | panicked
deriving DecidableEq, Repr

/-- Model of the join loop of the Drop impl, lib.rs lines 89 to 97: for
each worker in order, take the handle if present and join; joining a
thread that panicked makes the expect call panic (modelled by error).
The function outcome gives, per worker id, how that thread terminated
(join blocks until it has terminated, so an outcome always exists by the
time join returns). -/
def joinAll (outcome : Nat → JoinResult) : List Worker → Except String (List Worker)
  | [] => Except.ok []
  | w :: ws =>
    match w.thread with
    | some _ =>
      match outcome w.id with
      | JoinResult.finished =>
        match joinAll outcome ws with
        | Except.ok ws' => Except.ok ({ w with thread := none } :: ws')
        | Except.error e => Except.error e
      | JoinResult.panicked =>
        Except.error "A thread panicked while calling `join`."
    | none =>
      match joinAll outcome ws with
      | Except.ok ws' => Except.ok (w :: ws')
      | Except.error e => Except.error e

/-- Model of the Drop impl for ThreadPool, lib.rs lines 86 to 98.  The
first action of drop is self.sender.take(), dropping the sender and
closing the channel; the returned Bool records whether a live sender was
actually dropped by this call (take yields some at most once).  Then
every worker is joined in construction order; an abnormal worker
termination turns into a panic of drop itself (Except.error). -/
def ThreadPool.drop (p : ThreadPool) (outcome : Nat → JoinResult) :
    Bool × Except String ThreadPool :=
  (p.sender.isSome,
    match joinAll outcome p.workers with
    | Except.ok ws => Except.ok { workers := ws, sender := none }
    | Except.error e => Except.error e)

/-- Result of one iteration of the worker loop, lib.rs lines 109 to 127:
the loop either received a job (ran it and loops again), or received Err
and broke out of the loop, or is blocked inside recv. -/
inductive IterResult where
  | ran (j : Job)
  | stop
  | blocked
deriving DecidableEq, Repr

/-- Model of one iteration of the worker loop, lib.rs lines 109 to 127,
as a function of the channel queue and of whether the sender is still
alive.  recv returns Ok with the front job whenever the queue is not
empty (the backlog is drained even after the sender is gone), blocks
while the queue is empty but the sender alive, and returns Err exactly
when the queue is empty and the sender dropped; on Err the loop breaks.
The second component is the queue left behind. -/
def workerIter (queue : List Job) (senderAlive : Bool) :
    IterResult × List Job :=
  match queue with
  | j :: rest => (IterResult.ran j, rest)
  | [] =>
    if senderAlive then (IterResult.blocked, [])
    else (IterResult.stop, [])

/-- Events of one iteration of the worker loop body, lib.rs lines 111 to
126: acquiring the mutex on the shared receiver, the recv result, the
drop of the guard, invoking the job, breaking out of the loop. -/
inductive Ev where
  | lock
  | recvOk (j : Job)
  | recvErr
  | unlock
  | runJob (j : Job)
  | breakLoop
deriving DecidableEq, Repr

/-- Event trace of one iteration of the worker loop, read off lib.rs
lines 111 to 126: receiver.lock().unwrap(), then receiver.recv(), then
drop(receiver), then the match either invokes the job or breaks.  When
the queue is empty and the sender alive the thread is blocked inside
recv, still holding the lock. -/
def iterTrace (queue : List Job) (senderAlive : Bool) : List Ev :=
  match queue with
  | j :: _ => [Ev.lock, Ev.recvOk j, Ev.unlock, Ev.runJob j]
  | [] =>
    if senderAlive then [Ev.lock]
    else [Ev.lock, Ev.recvErr, Ev.unlock, Ev.breakLoop]

/-- Runtime state of one worker thread: in the loop about to receive,
executing job j, exited the loop normally, or terminated by an unwinding
job (which records the job that unwound). -/
inductive ThreadState where
  | running
  | busy (j : Job)
  | stopped
  | panicked (j : Job)
deriving DecidableEq, Repr

/-- Configuration of the whole system: the pool sender, the channel
queue, the state of each worker thread (index = worker id), and ghost
histories. shutdown records that drop has taken the sender; submitted,
takenOrder and executed record, in order, the jobs successfully sent,
the jobs dequeued by workers, and the jobs run to completion. -/
structure Config where
  sender : Option Unit
  shutdown : Bool
  queue : List Job
  threads : List ThreadState
  submitted : List Job
  takenOrder : List Job
  executed : List Job
deriving DecidableEq, Repr

/-- Initial configuration after ThreadPool::new n: channel empty, sender
present, n worker threads all in their receive loop. -/
def Config.init (n : Nat) : Config :=
  { sender := some (), shutdown := false, queue := [],
    threads := List.replicate n ThreadState.running,
    submitted := [], takenOrder := [], executed := [] }

/-- The job a thread has taken off the queue but not completed: a busy
thread is running it, a panicked thread unwound while running it. -/
def inFlight : ThreadState → Option Job
  | ThreadState.busy j => some j
  | ThreadState.panicked j => some j
  | _ => none

/-- Whether the receiving half of the channel still exists.  Each worker
closure owns one Arc clone of the receiver, dropped when the thread
function returns or unwinds, and the clone made in ThreadPool::new is
dropped before new returns; so the receiver is alive exactly while some
worker thread is still in its loop or executing a job. -/
def receiverAlive (c : Config) : Bool :=
  c.threads.any fun t =>
    match t with
    | ThreadState.running => true
    | ThreadState.busy _ => true
    | _ => false

/-- Interleaving small-step semantics of the pool.  submit is a
successful sender.send inside execute (lib.rs line 77); close is the
sender.take() at the start of drop (line 87); take is one worker locking
the receiver, receiving the front job and releasing the lock (lines 111
to 114); finish is a job returning normally (line 119); crash is a job
unwinding, which terminates that worker thread; exited is recv returning
Err on an empty closed channel and the loop breaking (lines 122 to 125). -/
inductive Step : Config → Config → Prop where
  | submit (c : Config) (j : Job)
      (hs : c.sender = some ()) (hr : receiverAlive c = true) :
      Step c { c with queue := c.queue ++ [j],
                      submitted := c.submitted ++ [j] }
  | close (c : Config) (hs : c.sender = some ()) :
      Step c { c with sender := none, shutdown := true }
  | take (c : Config) (i : Nat) (j : Job) (rest : List Job)
      (ht : c.threads[i]? = some ThreadState.running)
      (hq : c.queue = j :: rest) :
      Step c { c with queue := rest,
                      threads := c.threads.set i (ThreadState.busy j),
                      takenOrder := c.takenOrder ++ [j] }
  | finish (c : Config) (i : Nat) (j : Job)
      (ht : c.threads[i]? = some (ThreadState.busy j))
      (hj : j.panics = false) :
      Step c { c with threads := c.threads.set i ThreadState.running,
                      executed := c.executed ++ [j] }
  | crash (c : Config) (i : Nat) (j : Job)
      (ht : c.threads[i]? = some (ThreadState.busy j))
      (hj : j.panics = true) :
      Step c { c with threads := c.threads.set i (ThreadState.panicked j) }
  | exited (c : Config) (i : Nat)
      (ht : c.threads[i]? = some ThreadState.running)
      (hq : c.queue = []) (hs : c.sender = none) :
      Step c { c with threads := c.threads.set i ThreadState.stopped }

/-- Reflexive-transitive closure of Step: the reachable configurations. -/
inductive Reaches : Config → Config → Prop where
  | refl (c : Config) : Reaches c c
  | step {a b c : Config} : Reaches a b → Step b c → Reaches a c

/-- Teardown has completed: drop has taken the sender and every worker
thread has exited its loop normally, so every join in drop returned Ok
and drop itself returned. -/
def teardownCompleted (c : Config) : Prop :=
  c.sender = none ∧ ∀ t ∈ c.threads, t = ThreadState.stopped

/-- Inductive invariant of the transition system. -/
structure PoolInv (n : Nat) (c : Config) : Prop where
  len : c.threads.length = n
  sd : c.sender = none ↔ c.shutdown = true
  fifo : c.takenOrder ++ c.queue = c.submitted
  once : (c.executed ++ c.threads.filterMap inFlight).Perm c.takenOrder
  stopClosed : ∀ t ∈ c.threads, t = ThreadState.stopped → c.sender = none
  drained : (∀ t ∈ c.threads, t = ThreadState.stopped) → c.queue = []

/-- A job that returns normally. -/
def jA : Job := { id := 0, panics := false }

/-- A job whose closure unwinds when invoked. -/
def jP : Job := { id := 1, panics := true }

/-- A pool whose sender is still present. -/
def pLive : ThreadPool := { workers := [Worker.new 0 0], sender := some () }

/-- A pool whose sender has been taken by drop. -/
def pDead : ThreadPool := { workers := [Worker.new 0 0], sender := none }

/-- Join outcomes of a run in which every worker thread finished
normally. -/
def okOutcome : Nat → JoinResult := fun _ => JoinResult.finished

/-- Concrete run, one worker, one job: after execute jA. -/
def cW1 : Config :=
  { sender := some (), shutdown := false, queue := [jA],
    threads := [ThreadState.running], submitted := [jA],
    takenOrder := [], executed := [] }

/-- Concrete run: after drop takes the sender. -/
def cW2 : Config := { cW1 with sender := none, shutdown := true }

/-- Concrete run: after the worker dequeues jA. -/
def cW3 : Config :=
  { cW2 with queue := [], threads := [ThreadState.busy jA],
             takenOrder := [jA] }

/-- Concrete run: after jA returns. -/
def cW4 : Config :=
  { cW3 with threads := [ThreadState.running], executed := [jA] }

/-- Concrete run: after the worker sees the closed empty channel and its
loop breaks; teardown can now complete. -/
def cW5 : Config := { cW4 with threads := [ThreadState.stopped] }

/-- Run with an unwinding job, one worker: after execute jP. -/
def dD1 : Config :=
  { sender := some (), shutdown := false, queue := [jP],
    threads := [ThreadState.running], submitted := [jP],
    takenOrder := [], executed := [] }

/-- Run with an unwinding job: after the worker dequeues jP. -/
def dD2 : Config :=
  { dD1 with queue := [], threads := [ThreadState.busy jP],
             takenOrder := [jP] }

/-- Run with an unwinding job: jP unwound, the only worker thread is
gone, yet the pool still holds its sender. -/
def dDead : Config := { dD2 with threads := [ThreadState.panicked jP] }

/-- Rotating two blocks around a middle block is a permutation. -/
theorem append_rotate_perm {α : Type} (u m w : List α) :
    ((u ++ m) ++ w).Perm ((w ++ m) ++ u) := by
  have h1 : ((u ++ m) ++ w).Perm (w ++ (u ++ m)) := List.perm_append_comm
  have h2 : (w ++ (u ++ m)).Perm (w ++ (m ++ u)) :=
    List.Perm.append_left w List.perm_append_comm
  have h3 : w ++ (m ++ u) = (w ++ m) ++ u := (List.append_assoc w m u).symm
  exact h1.trans (h3 ▸ h2)

/-- Effect of List.set on a filterMap, up to permutation: replacing the
element a at index i by b trades the image of a for the image of b. -/
theorem filterMap_set_perm {α β : Type} (f : α → Option β) :
    ∀ (l : List α) (i : Nat) (a b : α), l[i]? = some a →
      ((l.set i b).filterMap f ++ (f a).toList).Perm
        (l.filterMap f ++ (f b).toList)
  | [], i, a, b, h => by simp at h
  | x :: xs, 0, a, b, h => by
    simp only [List.getElem?_cons_zero, Option.some.injEq] at h
    subst h
    simp only [List.set_cons_zero, List.filterMap_cons]
    cases hfb : f b <;> cases hfx : f x <;>
      simp only [Option.toList_some, Option.toList_none, List.append_nil,
        List.nil_append]
    · exact List.Perm.refl _
    · exact List.perm_append_singleton _ _
    · exact (List.perm_append_singleton _ _).symm
    · exact append_rotate_perm [_] _ [_]
  | x :: xs, i + 1, a, b, h => by
    simp only [List.getElem?_cons_succ] at h
    have ih := filterMap_set_perm f xs i a b h
    simp only [List.set_cons_succ, List.filterMap_cons]
    cases hfx : f x
    · exact ih
    · simp only [List.cons_append]
      exact List.Perm.cons _ ih

/-- The invariant holds in the initial configuration. -/
theorem poolInv_init (n : Nat) : PoolInv n (Config.init n) := by
  refine ⟨?_, ?_, rfl, ?_, ?_, fun _ => rfl⟩
  · simp [Config.init]
  · simp [Config.init]
  · have hfm : (List.replicate n ThreadState.running).filterMap inFlight = [] := by
      rw [List.filterMap_eq_nil_iff]
      intro t ht
      rw [List.eq_of_mem_replicate ht]
      rfl
    simp only [Config.init, List.nil_append, hfm]
    exact List.Perm.refl _
  · intro t ht hstop
    rw [List.eq_of_mem_replicate ht] at hstop
    simp at hstop

/-- The invariant is preserved by every step. -/
theorem poolInv_step {n : Nat} {c c' : Config} (h : PoolInv n c)
    (s : Step c c') : PoolInv n c' := by
  cases s with
  | submit j hs hr =>
    refine ⟨h.len, h.sd, ?_, h.once, h.stopClosed, ?_⟩
    · show c.takenOrder ++ (c.queue ++ [j]) = c.submitted ++ [j]
      rw [← List.append_assoc, h.fifo]
    · intro hall
      exfalso
      simp only [receiverAlive, List.any_eq_true] at hr
      obtain ⟨t, ht, hp⟩ := hr
      have he := hall t ht
      subst he
      simp at hp
  | close hs =>
    refine ⟨h.len, by simp, h.fifo, h.once, fun _ _ _ => rfl, h.drained⟩
  | take i j rest ht hq =>
    obtain ⟨hlt, -⟩ := List.getElem?_eq_some.mp ht
    refine ⟨?_, h.sd, ?_, ?_, ?_, ?_⟩
    · simp [h.len]
    · show (c.takenOrder ++ [j]) ++ rest = c.submitted
      rw [List.append_assoc, List.singleton_append, ← hq, h.fifo]
    · have hperm := filterMap_set_perm inFlight c.threads i
        ThreadState.running (ThreadState.busy j) ht
      simp only [inFlight, Option.toList_some, Option.toList_none,
        List.append_nil] at hperm
      refine (List.Perm.append_left c.executed hperm).trans ?_
      rw [← List.append_assoc]
      exact List.Perm.append_right _ h.once
    · intro t ht' hstop
      rcases List.mem_or_eq_of_mem_set ht' with hmem | heq
      · exact h.stopClosed t hmem hstop
      · rw [heq] at hstop
        simp at hstop
    · intro hall
      exfalso
      have hmem := List.mem_set c.threads i hlt (ThreadState.busy j)
      have := hall _ hmem
      simp at this
  | finish i j ht hj =>
    obtain ⟨hlt, -⟩ := List.getElem?_eq_some.mp ht
    refine ⟨?_, h.sd, h.fifo, ?_, ?_, ?_⟩
    · simp [h.len]
    · have hperm := filterMap_set_perm inFlight c.threads i
        (ThreadState.busy j) ThreadState.running ht
      simp only [inFlight, Option.toList_some, Option.toList_none,
        List.append_nil] at hperm
      show ((c.executed ++ [j]) ++
        (c.threads.set i ThreadState.running).filterMap inFlight).Perm
        c.takenOrder
      rw [List.append_assoc]
      exact (List.Perm.append_left _ List.perm_append_comm).trans
        ((List.Perm.append_left _ hperm).trans h.once)
    · intro t ht' hstop
      rcases List.mem_or_eq_of_mem_set ht' with hmem | heq
      · exact h.stopClosed t hmem hstop
      · rw [heq] at hstop
        simp at hstop
    · intro hall
      exfalso
      have hmem := List.mem_set c.threads i hlt ThreadState.running
      have := hall _ hmem
      simp at this
  | crash i j ht hj =>
    obtain ⟨hlt, -⟩ := List.getElem?_eq_some.mp ht
    refine ⟨?_, h.sd, h.fifo, ?_, ?_, ?_⟩
    · simp [h.len]
    · have hperm := filterMap_set_perm inFlight c.threads i
        (ThreadState.busy j) (ThreadState.panicked j) ht
      simp only [inFlight, Option.toList_some] at hperm
      have hcancel := (List.perm_append_right_iff [j]).mp hperm
      exact (List.Perm.append_left _ hcancel).trans h.once
    · intro t ht' hstop
      rcases List.mem_or_eq_of_mem_set ht' with hmem | heq
      · exact h.stopClosed t hmem hstop
      · rw [heq] at hstop
        simp at hstop
    · intro hall
      exfalso
      have hmem := List.mem_set c.threads i hlt (ThreadState.panicked j)
      have := hall _ hmem
      simp at this
  | exited i ht hq hs =>
    obtain ⟨hlt, -⟩ := List.getElem?_eq_some.mp ht
    refine ⟨?_, h.sd, h.fifo, ?_, fun _ _ _ => hs, fun _ => hq⟩
    · simp [h.len]
    · have hperm := filterMap_set_perm inFlight c.threads i
        ThreadState.running ThreadState.stopped ht
      simp only [inFlight, Option.toList_none, List.append_nil] at hperm
      exact (List.Perm.append_left _ hperm).trans h.once

/-- Every reachable configuration satisfies the invariant. -/
theorem reaches_inv {n : Nat} {c : Config}
    (h : Reaches (Config.init n) c) : PoolInv n c := by
  induction h with
  | refl => exact poolInv_init n
  | step hab hbc ih => exact poolInv_step ih hbc

/-- Concrete step: submitting jA. -/
theorem step01 : Step (Config.init 1) cW1 :=
  Step.submit (Config.init 1) jA rfl rfl

/-- Concrete step: drop takes the sender. -/
theorem step12 : Step cW1 cW2 := Step.close cW1 rfl

/-- Concrete step: the worker dequeues jA. -/
theorem step23 : Step cW2 cW3 := Step.take cW2 0 jA [] rfl rfl

/-- Concrete step: jA returns normally. -/
theorem step34 : Step cW3 cW4 := Step.finish cW3 0 jA rfl rfl

/-- Concrete step: the worker loop breaks on the closed empty channel. -/
theorem step45 : Step cW4 cW5 := Step.exited cW4 0 rfl rfl rfl

/-- The completed run is reachable. -/
theorem run_to_done : Reaches (Config.init 1) cW5 :=
  Reaches.step (Reaches.step (Reaches.step (Reaches.step
    (Reaches.step (Reaches.refl _) step01) step12) step23) step34) step45

/-- Concrete step: submitting the unwinding job jP. -/
theorem stepD01 : Step (Config.init 1) dD1 :=
  Step.submit (Config.init 1) jP rfl rfl

/-- Concrete step: the worker dequeues jP. -/
theorem stepD12 : Step dD1 dD2 := Step.take dD1 0 jP [] rfl rfl

/-- Concrete step: jP unwinds and the worker thread terminates. -/
theorem stepD23 : Step dD2 dDead := Step.crash dD2 0 jP rfl rfl

/-- The configuration with a live sender and no live worker is
reachable. -/
theorem reach_dDead : Reaches (Config.init 1) dDead :=
  Reaches.step (Reaches.step (Reaches.step (Reaches.refl _) stepD01)
    stepD12) stepD23

/-- C1: in any run of a pool with n workers (n at least 1), once
teardown has completed (drop took the sender and every worker thread
exited its loop normally, so every join returned and drop returned),
the sequence of jobs run to completion is a permutation of the sequence
of jobs submitted before shutdown: every submitted job was executed
exactly once, none duplicated across workers, none still queued was
discarded, whatever the number of jobs relative to n. -/
theorem exactly_once_execution (n : Nat) (c : Config) (_hn : 1 ≤ n)
    (hr : Reaches (Config.init n) c) (hdone : teardownCompleted c) :
    c.executed.Perm c.submitted := by
  have hinv := reaches_inv hr
  have hfm : c.threads.filterMap inFlight = [] := by
    rw [List.filterMap_eq_nil_iff]
    intro t ht
    rw [hdone.2 t ht]
    rfl
  have hq : c.queue = [] := hinv.drained hdone.2
  have hts : c.takenOrder = c.submitted := by
    have hf := hinv.fifo
    rwa [hq, List.append_nil] at hf
  have honce := hinv.once
  rwa [hfm, List.append_nil, hts] at honce

/-- Witness for C1 on the concrete completed run with one worker and one
job. -/
theorem exactly_once_execution_witness : cW5.executed.Perm cW5.submitted :=
  exactly_once_execution 1 cW5 (by decide) run_to_done ⟨rfl, by decide⟩

/-- C3: ThreadPool::new panics when asked for 0 workers, and for every
n at least 1 returns a pool holding exactly n workers with ids 0 to
n - 1, all sharing the one receiver of the single channel created by
new, each with a live thread handle, and with the sender stored and
present. -/
theorem new_spawns_n_workers :
    ThreadPool.new 0 = none ∧
    ∀ n, 1 ≤ n →
      ∃ p, ThreadPool.new n = some p ∧
        p.workers.length = n ∧
        p.workers.map (fun w => w.id) = List.range n ∧
        (∀ w ∈ p.workers, w.thread = some () ∧ w.rx = 0) ∧
        p.sender = some () := by
  refine ⟨rfl, ?_⟩
  intro n hn
  refine ⟨{ workers := (List.range n).map (fun id => Worker.new id 0),
            sender := some () }, ?_, ?_, ?_, ?_, rfl⟩
  · unfold ThreadPool.new
    split
    · rfl
    · omega
  · simp
  · rw [List.map_map]
    show (List.range n).map (fun i => i) = List.range n
    simp
  · intro w hw
    simp only [List.mem_map] at hw
    obtain ⟨i, -, rfl⟩ := hw
    exact ⟨rfl, rfl⟩

/-- Witness for C3 at n = 2. -/
theorem new_spawns_n_workers_witness :
    ∃ p, ThreadPool.new 2 = some p ∧
      p.workers.length = 2 ∧
      p.workers.map (fun w => w.id) = List.range 2 ∧
      (∀ w ∈ p.workers, w.thread = some () ∧ w.rx = 0) ∧
      p.sender = some () :=
  new_spawns_n_workers.2 2 (by decide)

/-- If the join loop returns Ok then worker ids are preserved in order,
every thread handle has been taken, and every joined thread had
finished normally. -/
theorem joinAll_ok (outcome : Nat → JoinResult) :
    ∀ (ws r : List Worker), joinAll outcome ws = Except.ok r →
      r.map (fun w => w.id) = ws.map (fun w => w.id) ∧
      (∀ w ∈ r, w.thread = none) ∧
      (∀ w ∈ ws, w.thread = some () → outcome w.id = JoinResult.finished) := by
  intro ws
  induction ws with
  | nil =>
    intro r h
    unfold joinAll at h
    simp only [Except.ok.injEq] at h
    subst h
    exact ⟨rfl, by simp, by simp⟩
  | cons w ws ih =>
    intro r h
    unfold joinAll at h
    cases hth : w.thread with
    | none =>
      simp only [hth] at h
      cases hrec : joinAll outcome ws with
      | ok ws' =>
        simp only [hrec, Except.ok.injEq] at h
        subst h
        obtain ⟨h1, h2, h3⟩ := ih ws' hrec
        refine ⟨by simp [h1], ?_, ?_⟩
        · intro x hx
          rcases List.mem_cons.mp hx with rfl | hx
          · exact hth
          · exact h2 x hx
        · intro x hx hsx
          rcases List.mem_cons.mp hx with rfl | hx
          · rw [hth] at hsx
            cases hsx
          · exact h3 x hx hsx
      | error e =>
        simp only [hrec] at h
        cases h
    | some u =>
      simp only [hth] at h
      cases hout : outcome w.id with
      | finished =>
        simp only [hout] at h
        cases hrec : joinAll outcome ws with
        | ok ws' =>
          simp only [hrec, Except.ok.injEq] at h
          subst h
          obtain ⟨h1, h2, h3⟩ := ih ws' hrec
          refine ⟨by simp [h1], ?_, ?_⟩
          · intro x hx
            rcases List.mem_cons.mp hx with rfl | hx
            · rfl
            · exact h2 x hx
          · intro x hx hsx
            rcases List.mem_cons.mp hx with rfl | hx
            · exact hout
            · exact h3 x hx hsx
        | error e =>
          simp only [hrec] at h
          cases h
      | panicked =>
        simp only [hout] at h
        cases h

/-- If every worker with a live handle finished normally, the join loop
returns Ok. -/
theorem joinAll_total (outcome : Nat → JoinResult) :
    ∀ ws : List Worker,
      (∀ w ∈ ws, w.thread = some () → outcome w.id = JoinResult.finished) →
      ∃ r, joinAll outcome ws = Except.ok r := by
  intro ws
  induction ws with
  | nil => exact fun _ => ⟨[], rfl⟩
  | cons w ws ih =>
    intro h
    obtain ⟨r, hr⟩ := ih (fun x hx => h x (List.mem_cons_of_mem w hx))
    cases hth : w.thread with
    | none => exact ⟨w :: r, by unfold joinAll; simp [hth, hr]⟩
    | some u =>
      have hfin : outcome w.id = JoinResult.finished := by
        cases u
        exact h w (List.mem_cons_self w ws) hth
      exact ⟨{ w with thread := none } :: r,
        by unfold joinAll; simp [hth, hfin, hr]⟩

/-- C2: drop first takes and so closes the sender (exactly once: the
take yields a live sender at most once over the pool lifetime), then
joins each worker in construction order; it returns normally only after
every worker thread has exited, with the sender gone and every handle
taken, and it returns normally if and only if no joined worker thread
terminated abnormally, panicking instead when one did. -/
theorem teardown_closes_then_joins :
    ∀ (p : ThreadPool) (outcome : Nat → JoinResult),
      (p.drop outcome).1 = p.sender.isSome ∧
      (∀ q, (p.drop outcome).2 = Except.ok q →
        q.sender = none ∧
        q.workers.map (fun w => w.id) = p.workers.map (fun w => w.id) ∧
        ∀ w ∈ q.workers, w.thread = none) ∧
      ((∃ q, (p.drop outcome).2 = Except.ok q) ↔
        ∀ w ∈ p.workers, w.thread = some () →
          outcome w.id = JoinResult.finished) := by
  intro p outcome
  refine ⟨rfl, ?_, ?_⟩
  · intro q hq
    unfold ThreadPool.drop at hq
    cases hrec : joinAll outcome p.workers with
    | ok ws =>
      simp only [hrec, Except.ok.injEq] at hq
      subst hq
      obtain ⟨h1, h2, -⟩ := joinAll_ok outcome p.workers ws hrec
      exact ⟨rfl, h1, h2⟩
    | error e =>
      simp only [hrec] at hq
      cases hq
  · constructor
    · rintro ⟨q, hq⟩
      unfold ThreadPool.drop at hq
      cases hrec : joinAll outcome p.workers with
      | ok ws => exact (joinAll_ok outcome p.workers ws hrec).2.2
      | error e =>
        simp only [hrec] at hq
        cases hq
    · intro hall
      obtain ⟨r, hr⟩ := joinAll_total outcome p.workers hall
      exact ⟨{ workers := r, sender := none },
        by unfold ThreadPool.drop; simp [hr]⟩

/-- Witness for C2 on a concrete one-worker pool whose thread finished
normally. -/
theorem teardown_closes_then_joins_witness :
    (pLive.drop okOutcome).1 = pLive.sender.isSome ∧
    ∃ q, (pLive.drop okOutcome).2 = Except.ok q :=
  ⟨(teardown_closes_then_joins pLive okOutcome).1,
   (teardown_closes_then_joins pLive okOutcome).2.2.mpr (by decide)⟩

/-- C4: once shutdown has begun (the sender has been taken), execute is
a silent no-op: the call is a total function (no blocking), its panic
flag is false (nothing raised), the pool and the queue are unchanged, so
the job is never enqueued; and a job never successfully sent is never
executed in any reachable configuration. -/
theorem execute_after_shutdown_noop :
    (∀ (p : ThreadPool) (alive : Bool) (j : Job) (q : List Job),
      p.sender = none → ThreadPool.execute p alive j q = (false, p, q)) ∧
    (∀ (n : Nat) (c : Config), Reaches (Config.init n) c →
      ∀ j : Job, j ∉ c.submitted → j ∉ c.executed) := by
  constructor
  · intro p alive j q hp
    unfold ThreadPool.execute
    rw [hp]
  · intro n c hr j hns hmem
    have hinv := reaches_inv hr
    apply hns
    have h1 : j ∈ c.executed ++ c.threads.filterMap inFlight :=
      List.mem_append.mpr (Or.inl hmem)
    have h2 : j ∈ c.takenOrder := hinv.once.mem_iff.mp h1
    have h3 : j ∈ c.takenOrder ++ c.queue := List.mem_append.mpr (Or.inl h2)
    rwa [hinv.fifo] at h3

/-- Witness for C4: executing on a pool whose sender is gone. -/
theorem execute_after_shutdown_noop_witness :
    ThreadPool.execute pDead true jA [] = (false, pDead, []) :=
  execute_after_shutdown_noop.1 pDead true jA [] rfl

/-- C5: in every reachable configuration the sender is absent exactly
when shutdown has begun, and no step ever turns an absent sender back
into a present one. -/
theorem sender_none_iff_shutdown :
    (∀ (n : Nat) (c : Config), Reaches (Config.init n) c →
      (c.sender = none ↔ c.shutdown = true)) ∧
    (∀ c c' : Config, Step c c' → c.sender = none → c'.sender = none) := by
  constructor
  · intro n c h
    exact (reaches_inv h).sd
  · intro c c' s hnone
    cases s <;> first | exact hnone | rfl

/-- Witness for C5 on the concrete run just after drop took the
sender. -/
theorem sender_none_iff_shutdown_witness : cW2.sender = none :=
  (sender_none_iff_shutdown.1 1 cW2
    (Reaches.step (Reaches.step (Reaches.refl _) step01) step12)).mpr rfl

/-- C6: each iteration of the worker loop either receives the front job
and runs it before looping again, or breaks out of the loop exactly
when recv reports the channel closed and empty; at the level of the
transition system, the only step that moves a worker thread into the
terminal stopped state starts from the running state with an empty
queue and a dropped sender. -/
theorem worker_loop_exit_only_on_close :
    (∀ (q : List Job) (s : Bool),
      (workerIter q s).1 = IterResult.stop ↔ (q = [] ∧ s = false)) ∧
    (∀ (s : Bool) (j : Job) (rest : List Job),
      workerIter (j :: rest) s = (IterResult.ran j, rest)) ∧
    (∀ (c c' : Config) (i : Nat), Step c c' →
      c'.threads[i]? = some ThreadState.stopped →
      c.threads[i]? ≠ some ThreadState.stopped →
      c.threads[i]? = some ThreadState.running ∧ c.queue = [] ∧
        c.sender = none) := by
  refine ⟨?_, ?_, ?_⟩
  · intro q s
    cases q with
    | nil => cases s <;> simp [workerIter]
    | cons j rest => simp [workerIter]
  · intro s j rest
    rfl
  · intro c c' i hstep hpost hpre
    cases hstep with
    | submit j hs hr => exact absurd hpost hpre
    | close hs => exact absurd hpost hpre
    | take k j rest ht hq =>
      by_cases hik : i = k
      · subst hik
        obtain ⟨hlt, -⟩ := List.getElem?_eq_some.mp ht
        rw [show ((c.threads.set i (ThreadState.busy j))[i]? =
          some (ThreadState.busy j)) from List.getElem?_set_self hlt]
          at hpost
        simp at hpost
      · rw [List.getElem?_set_ne (fun h => hik h.symm)] at hpost
        exact absurd hpost hpre
    | finish k j ht hj =>
      by_cases hik : i = k
      · subst hik
        obtain ⟨hlt, -⟩ := List.getElem?_eq_some.mp ht
        rw [show ((c.threads.set i ThreadState.running)[i]? =
          some ThreadState.running) from List.getElem?_set_self hlt]
          at hpost
        simp at hpost
      · rw [List.getElem?_set_ne (fun h => hik h.symm)] at hpost
        exact absurd hpost hpre
    | crash k j ht hj =>
      by_cases hik : i = k
      · subst hik
        obtain ⟨hlt, -⟩ := List.getElem?_eq_some.mp ht
        rw [show ((c.threads.set i (ThreadState.panicked j))[i]? =
          some (ThreadState.panicked j)) from List.getElem?_set_self hlt]
          at hpost
        simp at hpost
      · rw [List.getElem?_set_ne (fun h => hik h.symm)] at hpost
        exact absurd hpost hpre
    | exited k ht hq hs =>
      by_cases hik : i = k
      · subst hik
        exact ⟨ht, hq, hs⟩
      · rw [List.getElem?_set_ne (fun h => hik h.symm)] at hpost
        exact absurd hpost hpre

/-- Witness for C6 on the concrete exit step of the completed run. -/
theorem worker_loop_exit_only_on_close_witness :
    cW4.threads[0]? = some ThreadState.running ∧ cW4.queue = [] ∧
      cW4.sender = none :=
  worker_loop_exit_only_on_close.2.2 cW4 cW5 0 step45 rfl (by decide)

/-- C7: on every iteration of the worker loop, the mutex guard on the
shared receiver is released strictly before the received job is
invoked: in the event trace of an iteration, every runJob event is
preceded by an unlock event. -/
theorem unlock_before_run :
    ∀ (q : List Job) (s : Bool) (i : Nat) (j : Job),
      (iterTrace q s)[i]? = some (Ev.runJob j) →
      ∃ u, u < i ∧ (iterTrace q s)[u]? = some Ev.unlock := by
  intro q s i j h
  cases q with
  | nil =>
    exfalso
    cases s with
    | false =>
      simp only [iterTrace] at h
      rw [if_neg (by simp)] at h
      obtain ⟨hlt, he⟩ := List.getElem?_eq_some.mp h
      simp only [List.length_cons, List.length_nil] at hlt
      interval_cases i <;> simp_all
    | true =>
      simp only [iterTrace] at h
      rw [if_pos trivial] at h
      obtain ⟨hlt, he⟩ := List.getElem?_eq_some.mp h
      simp only [List.length_cons, List.length_nil] at hlt
      interval_cases i
      simp_all
  | cons x rest =>
    simp only [iterTrace] at h ⊢
    obtain ⟨hlt, he⟩ := List.getElem?_eq_some.mp h
    simp only [List.length_cons, List.length_nil] at hlt
    interval_cases i <;> simp_all
    exact ⟨2, by omega, rfl⟩

/-- Witness for C7: the iteration that runs jA from a one-job queue. -/
theorem unlock_before_run_witness :
    ∃ u, u < 3 ∧ (iterTrace [jA] true)[u]? = some Ev.unlock :=
  unlock_before_run [jA] true 3 jA rfl

/-- C8: in every reachable configuration the sequence of jobs dequeued
so far followed by the jobs still queued equals the sequence of jobs
submitted: jobs enter the shared queue in submission order and are
dequeued from it in exactly that order (in particular FIFO for two jobs
submitted sequentially by the same caller), whichever workers take
them. -/
theorem dequeue_order_eq_submission_order :
    ∀ (n : Nat) (c : Config), Reaches (Config.init n) c →
      c.takenOrder ++ c.queue = c.submitted :=
  fun _ _ h => (reaches_inv h).fifo

/-- Witness for C8 on the completed concrete run. -/
theorem dequeue_order_eq_submission_order_witness :
    cW5.takenOrder ++ cW5.queue = cW5.submitted :=
  dequeue_order_eq_submission_order 1 cW5 run_to_done

/-- C9 amended: whenever execute runs while the pool still holds its
sender and no worker thread has terminated abnormally, the receiving
half of the channel is still owned by some live worker, the send cannot
fail, and execute neither panics nor raises: it enqueues the job at the
back of the queue.  (The unqualified claim is refuted by the theorem
named send_fails_despite_sender_present.) -/
theorem send_ok_while_worker_alive :
    ∀ (n : Nat) (c : Config), 1 ≤ n → Reaches (Config.init n) c →
      c.sender = some () →
      (∀ j : Job, ThreadState.panicked j ∉ c.threads) →
      receiverAlive c = true ∧
      ∀ (p : ThreadPool) (j : Job), p.sender = some () →
        ThreadPool.execute p (receiverAlive c) j c.queue =
          (false, p, c.queue ++ [j]) := by
  intro n c hn hr hs hnp
  have hinv := reaches_inv hr
  have hlen : c.threads.length = n := hinv.len
  have hne : c.threads ≠ [] := by
    intro h0
    rw [h0] at hlen
    simp only [List.length_nil] at hlen
    omega
  have halive : receiverAlive c = true := by
    obtain ⟨t, ht⟩ := List.exists_mem_of_ne_nil c.threads hne
    refine List.any_eq_true.mpr ⟨t, ht, ?_⟩
    cases t with
    | running => rfl
    | busy j => rfl
    | stopped =>
      exact absurd (hinv.stopClosed _ ht rfl) (by rw [hs]; simp)
    | panicked j => exact absurd ht (hnp j)
  refine ⟨halive, ?_⟩
  intro p j hp
  unfold ThreadPool.execute
  rw [hp, halive]
  rfl

/-- Witness for the amended C9 in the initial one-worker
configuration. -/
theorem send_ok_while_worker_alive_witness :
    ThreadPool.execute pLive (receiverAlive (Config.init 1)) jA
      (Config.init 1).queue =
      (false, pLive, (Config.init 1).queue ++ [jA]) :=
  (send_ok_while_worker_alive 1 (Config.init 1) (by decide)
    (Reaches.refl _) rfl
    (fun j h => by simp [Config.init] at h)).2 pLive jA rfl

/-- C9 as stated is false on the code: the configuration dDead is
reachable, the pool still holds its sender there (shutdown has not
begun), yet the receiving half of the channel is gone because the only
worker thread was terminated by an unwinding job, so the channel send
fails and execute panics on the unwrap (panic flag true). -/
theorem send_fails_despite_sender_present :
    Reaches (Config.init 1) dDead ∧ dDead.sender = some () ∧
    (ThreadPool.execute pLive (receiverAlive dDead) jA dDead.queue).1
      = true :=
  ⟨reach_dDead, rfl, rfl⟩

/-- C10: execute never changes any field of the pool (workers vector,
ids, handles, presence of the sender), and its only effect on the
channel is to append at most one job at the back of the queue. -/
theorem execute_frame :
    ∀ (p : ThreadPool) (alive : Bool) (j : Job) (q : List Job),
      (ThreadPool.execute p alive j q).2.1 = p ∧
      ((ThreadPool.execute p alive j q).2.2 = q ∨
        (ThreadPool.execute p alive j q).2.2 = q ++ [j]) := by
  intro p alive j q
  unfold ThreadPool.execute
  cases hp : p.sender with
  | none => exact ⟨rfl, Or.inl rfl⟩
  | some u =>
    cases alive with
    | false => exact ⟨rfl, Or.inl rfl⟩
    | true => exact ⟨rfl, Or.inr rfl⟩
